import Mathlib

/-!
Verification of the TTS sanitizer plugin (src/main.py).

The development shallowly embeds the plugin's core: the rule compiler
(`_compile_patterns`, `_parse_replacements`), the sanitization pipeline
(`filter_text`) and the playback gate (`should_skip_tts`).  Python strings
are modelled as `String` / `List Char` (one entry per code point, so
`len` agrees with `List.length`).  The regular expressions the source
uses fall into a small fragment: a sequence of character classes with at
most one greedy starred class in the middle (`[（(][^（()]*[）)]` and the
fixed-width class sequences), a repeat-collapse pattern `(.)\1{m,}`, and
the whitespace pattern `\s+`; the fragment is embedded by `Pat` together
with an executable matcher implementing Python's leftmost, greedy with
backtracking `re.sub` semantics, and the two special-purpose patterns are
embedded by the run-collapsing and whitespace-collapsing functions below.
`re.compile` of a configured pattern string is modelled by an
`Option Pat`: `some p` stands for a source string compiling to the
matcher `p`, `none` for a string on which `re.compile` raises.
-/

namespace TTS

/-- Python whitespace (the character set matched by `\s` in a `str`
pattern and stripped by `str.strip`). -/
def isPySpace (c : Char) : Bool :=
  [' ', '\t', '\n', '\r', '\x0b', '\x0c', '\x1c', '\x1d', '\x1e', '\x1f',
   '\x85', '\xa0', '\u1680', '\u2000', '\u2001', '\u2002', '\u2003', '\u2004', '\u2005', '\u2006', '\u2007', '\u2008', '\u2009', '\u200a', '\u2028', '\u2029', '\u202f', '\u205f', '\u3000'].contains c

/-- A compiled regex of the fragment the plugin's pattern lists use: a
sequence of character classes, optionally followed by one greedy starred
class and a trailing sequence of character classes. -/
structure Pat where
  pre : List (Char → Bool)
  star : Option ((Char → Bool) × List (Char → Bool))

/-- Match a sequence of one-character classes against the front of a
list; returns the rest of the list on success. -/
def matchCls : List (Char → Bool) → List Char → Option (List Char)
  | [], l => some l
  | _ :: _, [] => none
  | p :: ps, c :: cs => if p c then matchCls ps cs else none

/-- Length of the longest prefix whose characters satisfy `p`. -/
def countLeading (p : Char → Bool) : List Char → Nat
  | [] => 0
  | c :: cs => if p c then countLeading p cs + 1 else 0

/-- Greedy star with backtracking: try to consume `j` characters (the
caller guarantees the first `j` characters satisfy the starred class)
and then the trailing classes `post`; on failure retry with one
character fewer.  Returns the total number of characters consumed. -/
def tryStarFrom (post : List (Char → Bool)) (l : List Char) : Nat → Option Nat
  | 0 =>
    match matchCls post l with
    | some _ => some post.length
    | none => none
  | j + 1 =>
    match matchCls post (l.drop (j + 1)) with
    | some _ => some (j + 1 + post.length)
    | none => tryStarFrom post l j

/-- Try to match `pat` at the front of `l`; returns the number of
characters the (leftmost, greedy) match consumes. -/
def tryMatchPat (pat : Pat) (l : List Char) : Option Nat :=
  match matchCls pat.pre l with
  | none => none
  | some rest =>
    match pat.star with
    | none => some pat.pre.length
    | some (p, post) =>
      match tryStarFrom post rest (countLeading p rest) with
      | some consumed => some (pat.pre.length + consumed)
      | none => none

/-- One left-to-right `re.sub(pat, "", ·)` scan; `fuel` bounds the number
of scan steps (each step consumes at least one character, so the initial
length is enough fuel). -/
def reSubGo (pat : Pat) : Nat → List Char → List Char
  | _, [] => []
  | 0, l => l
  | fuel + 1, c :: cs =>
    match tryMatchPat pat (c :: cs) with
    | some (n + 1) => reSubGo pat fuel (cs.drop n)
    | _ => c :: reSubGo pat fuel cs

/-- `re.sub(pat, "", l)`: delete every (leftmost, non-overlapping)
match of `pat`. -/
def reSubEmpty (pat : Pat) (l : List Char) : List Char :=
  reSubGo pat l.length l

/-- One scan of Python `str.replace` for a non-empty needle; `fuel`
bounds the scan steps as in `reSubGo`. -/
def strReplaceGo (old nw : List Char) : Nat → List Char → List Char
  | _, [] => []
  | 0, l => l
  | fuel + 1, c :: cs =>
    if old.isPrefixOf (c :: cs) then
      nw ++ strReplaceGo old nw fuel (cs.drop (old.length - 1))
    else c :: strReplaceGo old nw fuel cs

/-- Python `s.replace(old, nw)`: replace every non-overlapping
occurrence of `old`, scanning left to right; an empty `old` matches at
every boundary, so Python inserts `nw` before every character and at
the end. -/
def strReplace (old nw s : List Char) : List Char :=
  match old with
  | [] => nw ++ s.flatMap (fun c => c :: nw)
  | _ :: _ => strReplaceGo old nw s.length s

/-- One scan of `re.sub(r"\s+", " ", ·)`: the flag records whether the
scanner is inside a whitespace run whose single `' '` was already
emitted. -/
def collapseWsAux : Bool → List Char → List Char
  | _, [] => []
  | inRun, c :: cs =>
    if isPySpace c then
      if inRun then collapseWsAux true cs
      else ' ' :: collapseWsAux true cs
    else c :: collapseWsAux false cs

/-- `re.sub(r"\s+", " ", l)`: collapse every whitespace run to one
space. -/
def collapseWs (l : List Char) : List Char :=
  collapseWsAux false l

/-- Python `str.strip()`: drop leading and trailing whitespace. -/
def pyStrip (l : List Char) : List Char :=
  ((l.dropWhile isPySpace).reverse.dropWhile isPySpace).reverse

/-- The pipeline's final step, `re.sub(r"\s+", " ", text).strip()`. -/
def normalizeWs (l : List Char) : List Char :=
  pyStrip (collapseWs l)

/-- Emit one maximal run of `k` copies of `c`: the compiled pattern
`(.)\1{m,}` matches the run exactly when `k > m`, and the substitution
callback `m.group(1) * count` then emits `n` copies. -/
def emitRun (m n : Nat) (c : Char) (k : Nat) : List Char :=
  if m < k then List.replicate n c else List.replicate k c

/-- Scan the tail of the input while tracking the current run (`c`
repeated `k` times so far). -/
def collapseRunsAux (m n : Nat) : Char → Nat → List Char → List Char
  | c, k, [] => emitRun m n c k
  | c, k, d :: ds =>
    if d = c then collapseRunsAux m n c (k + 1) ds
    else emitRun m n c k ++ collapseRunsAux m n d 1 ds

/-- `re.sub` with the compiled repeat pattern `(.)\1{m,}` and the
callback emitting `n` copies of the repeated character: every maximal
run longer than `m` becomes `n` copies, shorter runs are untouched. -/
def collapseRunsWith (m n : Nat) : List Char → List Char
  | [] => []
  | c :: cs => collapseRunsAux m n c 1 cs

/-- Python `item.split(sep, 1)` for an `item` containing `sep`: the part
before the first `sep` and the part after it. -/
def splitFirst (sep : Char) : List Char → List Char × List Char
  | [] => ([], [])
  | c :: cs =>
    if c = sep then ([], cs)
    else
      let pr := splitFirst sep cs
      (c :: pr.1, pr.2)

/-- Python dict assignment `d[k] = v` on an insertion-ordered
association list: an existing key keeps its position and gets the new
value, a new key is appended. -/
def dictInsert (k v : List Char) (m : List (List Char × List Char)) :
    List (List Char × List Char) :=
  if m.any (fun kv => kv.1 == k) then
    m.map (fun kv => if kv.1 == k then (k, v) else kv)
  else m ++ [(k, v)]

/-- The plugin's configuration surface (the options `_get_default_config`
enumerates).  `max_repeat_count` is an `int` in the source; its
documented domain is `int >= 1` (default 2), so it is modelled as `Nat`.
Pattern entries are `Option Pat` as explained in the header. -/
structure Config where
  enabled : Bool
  max_length : Int
  max_processing_length : Int
  emoticon_patterns : List (Option Pat)
  filter_words : List (List Char)
  replacement_words : List (List Char)
  filter_special_chars : Bool
  special_char_patterns : List (Option Pat)
  filter_repeats : Bool
  max_repeat_count : Nat
  debug_mode : Bool

/-- Character-class membership. -/
def inCls (cs : List Char) (c : Char) : Bool :=
  cs.contains c

/-- A pattern that is a plain sequence of character classes. -/
def clsPat (ps : List (Char → Bool)) : Pat :=
  { pre := ps, star := none }

/-- `r"[（(][^（()]*[）)]"` (note the negated middle class excludes the
halfwidth close paren but not the fullwidth one). -/
def emoticonParen : Pat :=
  { pre := [inCls ['（', '(']],
    star := some (fun c => !inCls ['（', '(', ')'] c, [inCls ['）', ')']]) }

/-- `r"[＞>][＿_][＜<]"` -/
def emoticonGtLt : Pat :=
  clsPat [inCls ['＞', '>'], inCls ['＿', '_'], inCls ['＜', '<']]

/-- `r"[＾^][＿_][＾^]"` -/
def emoticonCaret : Pat :=
  clsPat [inCls ['＾', '^'], inCls ['＿', '_'], inCls ['＾', '^']]

/-- `r"[oO][＿_][oO]"` -/
def emoticonOo : Pat :=
  clsPat [inCls ['o', 'O'], inCls ['＿', '_'], inCls ['o', 'O']]

/-- `r"[xX][＿_][xX]"` -/
def emoticonXx : Pat :=
  clsPat [inCls ['x', 'X'], inCls ['＿', '_'], inCls ['x', 'X']]

/-- `r"[－-][＿_][－-]"` -/
def emoticonDash : Pat :=
  clsPat [inCls ['－', '-'], inCls ['＿', '_'], inCls ['－', '-']]

/-- `r"[（(][；;][＿_][；;][）)]"` -/
def emoticonCry : Pat :=
  clsPat [inCls ['（', '('], inCls ['；', ';'], inCls ['＿', '_'],
    inCls ['；', ';'], inCls ['）', ')']]

/-- The built-in `EMOTICON_PATTERNS` list (all seven entries compile). -/
def EMOTICON_PATTERNS : List (Option Pat) :=
  [some emoticonParen, some emoticonGtLt, some emoticonCaret,
   some emoticonOo, some emoticonXx, some emoticonDash, some emoticonCry]

/-- The first built-in special-character class (hearts, stars, musical
notes; the emoji written with a variation selector contribute both the
base code point and `U+FE0F` to the class). -/
def specialSymbols : Pat :=
  clsPat [inCls ['★', '☆', '♪', '♫', '♬', '♩', '♡', '♥', '❤', '\uFE0F',
    '💖', '💕', '💗', '💓', '💝', '💟', '💜', '💛', '💚', '💙', '🧡', '🤍',
    '🖤', '🤎', '💔', '❣', '💋']]

/-- The second built-in special-character class (arrows). -/
def specialArrows : Pat :=
  clsPat [inCls ['→', '←', '↑', '↓', '↖', '↗', '↘', '↙', '↔', '↕', '↺', '↻']]

/-- The built-in `SPECIAL_CHAR_PATTERNS` list. -/
def SPECIAL_CHAR_PATTERNS : List (Option Pat) :=
  [some specialSymbols, some specialArrows]

/-- The built-in `FILTER_WORDS` list. -/
def FILTER_WORDS : List (List Char) :=
  ["orz".data, "OTZ".data, "QAQ".data, "QWQ".data, "TAT".data, "TUT".data]

/-- The built-in `DEFAULT_REPLACEMENTS` list. -/
def DEFAULT_REPLACEMENTS : List (List Char) :=
  ["233|哈哈哈".data, "666|厉害".data, "999|很棒".data, "6|厉害".data,
   "555|呜呜呜".data]

/-- `_get_default_config`. -/
def get_default_config : Config :=
  { enabled := true
    max_length := 200
    max_processing_length := 10000
    emoticon_patterns := EMOTICON_PATTERNS
    filter_words := FILTER_WORDS
    replacement_words := DEFAULT_REPLACEMENTS
    filter_special_chars := true
    special_char_patterns := SPECIAL_CHAR_PATTERNS
    filter_repeats := true
    max_repeat_count := 2
    debug_mode := false }

/-- The compiled artifacts `_compile_patterns` stores on the plugin:
`repeat_regex` carries the `max_repeat_count` baked into the compiled
pattern `(.)\1{count,}` (`none` models Python `None`). -/
structure RuleSet where
  emoticon_regex : List Pat
  special_regex : List Pat
  repeat_regex : Option Nat
  replacements : List (List Char × List Char)

/-- The rule set the `except` clause of `_compile_patterns` installs. -/
def emptyRuleSet : RuleSet :=
  { emoticon_regex := [], special_regex := [], repeat_regex := none,
    replacements := [] }

/-- `[re.compile(p) for p in patterns]`: the comprehension raises on the
first entry that fails to compile, modelled by `Except`. -/
def compileList : List (Option Pat) → Except Unit (List Pat)
  | [] => Except.ok []
  | none :: _ => Except.error ()
  | some q :: ps =>
    match compileList ps with
    | Except.ok qs => Except.ok (q :: qs)
    | Except.error e => Except.error e

/-- The loop body of `_parse_replacements`: an entry containing the
separator bar is split on the first bar, both halves are stripped, and
the pair is stored only when both halves are non-empty after stripping;
any other entry leaves the dict unchanged. -/
def parseStep (m : List (List Char × List Char)) (item : List Char) :
    List (List Char × List Char) :=
  if item.contains '|' then
    let pr := splitFirst '|' item
    let original := pyStrip pr.1
    let replacement := pyStrip pr.2
    if original ≠ [] ∧ replacement ≠ [] then dictInsert original replacement m
    else m
  else m

/-- `_parse_replacements`: fold the loop body over the configured
entries, starting from the empty dict. -/
def parse_replacements (lst : List (List Char)) : List (List Char × List Char) :=
  lst.foldl parseStep []

/-- `_compile_patterns`: one `try` covers compiling the emoticon list,
the special-character list (only when `filter_special_chars`), the
repeat pattern and the replacement parsing; any compile failure falls
through to the `except` clause, which installs `emptyRuleSet`.  (The
repeat pattern and the replacement parsing cannot fail.) -/
def compile_patterns (cfg : Config) : RuleSet :=
  match compileList cfg.emoticon_patterns,
      (if cfg.filter_special_chars then compileList cfg.special_char_patterns
       else Except.ok []) with
  | Except.ok emo, Except.ok spc =>
    { emoticon_regex := emo
      special_regex := spc
      repeat_regex :=
        if cfg.filter_repeats then some cfg.max_repeat_count else none
      replacements := parse_replacements cfg.replacement_words }
  | _, _ => emptyRuleSet

/-- Pipeline step 1: delete the matches of each emoticon (or special
character) matcher, in declared order. -/
def applyRegexList (pats : List Pat) (t : List Char) : List Char :=
  pats.foldl (fun t pat => reSubEmpty pat t) t

/-- Pipeline step 2: remove every occurrence of every filter word. -/
def applyWordRemoval (ws : List (List Char)) (t : List Char) : List Char :=
  ws.foldl (fun t w => strReplace w [] t) t

/-- Pipeline step 3: apply the replacement mapping in insertion order. -/
def applyReplacements (m : List (List Char × List Char)) (t : List Char) :
    List Char :=
  m.foldl (fun t kv => strReplace kv.1 kv.2 t) t

/-- Pipeline step 5: the repeat pass; `rx` is the compiled threshold,
`count` the `max_repeat_count` the substitution callback reads from the
configuration at filter time. -/
def applyRepeat (rx : Option Nat) (count : Nat) (t : List Char) : List Char :=
  match rx with
  | some m => collapseRunsWith m count t
  | none => t

/-- `filter_text`: the guard, then emoticon removal, word removal,
replacements, special-character removal, repeat collapse, and
whitespace normalization. -/
def filter_text (cfg : Config) (rs : RuleSet) (text : String) : String :=
  if text.data = [] ∨ cfg.max_processing_length < (text.length : Int) then ""
  else
    String.mk (normalizeWs
      (applyRepeat rs.repeat_regex cfg.max_repeat_count
        (applyRegexList rs.special_regex
          (applyReplacements rs.replacements
            (applyWordRemoval cfg.filter_words
              (applyRegexList rs.emoticon_regex text.data))))))

/-- `filter_text` as invoked by the plugin, on the rule set compiled
from the same configuration. -/
def filterWithConfig (cfg : Config) (text : String) : String :=
  filter_text cfg (compile_patterns cfg) text

/-- `should_skip_tts`: skip when the stripped text is falsy or
`max_length` is positive and the (unstripped) length exceeds it. -/
def should_skip_tts (cfg : Config) (text : String) : Bool :=
  (pyStrip text.data).isEmpty ||
    (decide (0 < cfg.max_length) && decide (cfg.max_length < (text.length : Int)))

/-! ### Configurations used by individual properties -/

/-- A configuration exercising only the repeat pass: no emoticon
patterns, no filter words, no replacements, special characters off. -/
def repeatOnlyConfig (n : Nat) : Config :=
  { enabled := true, max_length := 200, max_processing_length := 10000,
    emoticon_patterns := [], filter_words := [], replacement_words := [],
    filter_special_chars := false, special_char_patterns := [],
    filter_repeats := true, max_repeat_count := n, debug_mode := false }

/-- A configuration exercising only the replacement pass, with the
pairs 233 to 哈哈哈 and 666 to 厉害. -/
def replacementsOnlyConfig : Config :=
  { enabled := true, max_length := 200, max_processing_length := 10000,
    emoticon_patterns := [], filter_words := [],
    replacement_words := ["233|哈哈哈".data, "666|厉害".data],
    filter_special_chars := false, special_char_patterns := [],
    filter_repeats := false, max_repeat_count := 2, debug_mode := false }

/-- A configuration whose only rule is the (valid) parenthesis-emoticon
pattern. -/
def parenOnlyConfig : Config :=
  { enabled := true, max_length := 200, max_processing_length := 10000,
    emoticon_patterns := [some emoticonParen], filter_words := [],
    replacement_words := [], filter_special_chars := false,
    special_char_patterns := [], filter_repeats := false,
    max_repeat_count := 2, debug_mode := false }

/-- `parenOnlyConfig` after a reload that added one invalid pattern
entry to the emoticon list. -/
def parenPlusInvalidConfig : Config :=
  { parenOnlyConfig with emoticon_patterns := [some emoticonParen, none] }

/-! ### Helper lemmas -/

theorem pyStrip_eq_rdropWhile (l : List Char) :
    pyStrip l = List.rdropWhile isPySpace (l.dropWhile isPySpace) := rfl

theorem head_dropWhile_false (p : Char → Bool) (l : List Char) {c : Char}
    {cs : List Char} (h : l.dropWhile p = c :: cs) : p c = false := by
  induction l with
  | nil => simp [List.dropWhile] at h
  | cons a as ih =>
    rw [List.dropWhile_cons] at h
    by_cases ha : p a
    · rw [if_pos ha] at h
      exact ih h
    · rw [if_neg ha] at h
      obtain ⟨rfl, -⟩ := List.cons.inj h
      exact Bool.eq_false_iff.mpr ha

theorem dropWhile_pyStrip (l : List Char) :
    (pyStrip l).dropWhile isPySpace = pyStrip l := by
  rw [pyStrip_eq_rdropWhile]
  rcases hY : List.rdropWhile isPySpace (l.dropWhile isPySpace) with _ | ⟨c, cs⟩
  · rfl
  · obtain ⟨t, ht⟩ := List.rdropWhile_prefix isPySpace (l.dropWhile isPySpace)
    rw [hY] at ht
    have ht' : l.dropWhile isPySpace = c :: (cs ++ t) := by
      rw [← ht]
      rfl
    have hc : isPySpace c = false := head_dropWhile_false isPySpace l ht'
    simp [List.dropWhile_cons, hc]

theorem pyStrip_idem (l : List Char) : pyStrip (pyStrip l) = pyStrip l := by
  conv_lhs => rw [pyStrip_eq_rdropWhile (pyStrip l), dropWhile_pyStrip l]
  rw [pyStrip_eq_rdropWhile l, List.rdropWhile_idempotent]

theorem compileList_error {ps : List (Option Pat)}
    (h : ps.any Option.isNone = true) : compileList ps = Except.error () := by
  induction ps with
  | nil => simp at h
  | cons p ps ih =>
    cases p with
    | none => rfl
    | some q =>
      simp only [List.any_cons, Option.isNone_some, Bool.false_or] at h
      simp [compileList, ih h]

/-! ### The claims -/

/-- Claim C1: the gate returns true exactly when the stripped text is
empty, or `max_length` is positive and the unstripped length exceeds
it; with `max_length = 0` only the emptiness condition applies. -/
theorem claim_C1_gate (cfg : Config) (s : String) :
    should_skip_tts cfg s = true ↔
      pyStrip s.data = [] ∨
        (0 < cfg.max_length ∧ cfg.max_length < (s.length : Int)) := by
  simp [should_skip_tts, List.isEmpty_iff]

/-- Claim C2: on an empty input, or one longer than
`max_processing_length`, `filter_text` returns the empty string, for
every rule set (so no substitution pass can affect the result). -/
theorem claim_C2_guard (cfg : Config) (rs : RuleSet) (s : String)
    (h : s.data = [] ∨ cfg.max_processing_length < (s.length : Int)) :
    filter_text cfg rs s = "" := by
  simp only [filter_text]
  rw [if_pos h]

theorem claim_C2_guard_witness :
    ((("" : String)).data = [] ∨
      get_default_config.max_processing_length < ((("" : String)).length : Int)) ∧
    filter_text get_default_config emptyRuleSet "" = "" :=
  ⟨Or.inl rfl, claim_C2_guard get_default_config emptyRuleSet "" (Or.inl rfl)⟩

/-- Claim C3, counterexample: adding one invalid pattern to the
configuration does not merely drop that entry — on the input `（ｘ）a`,
which the invalid entry does not affect, the previously valid
parenthesis rule no longer applies after the reload. -/
theorem claim_C3_counterexample :
    filter_text parenPlusInvalidConfig (compile_patterns parenPlusInvalidConfig)
        "（ｘ）a" = "（ｘ）a" ∧
      filter_text parenOnlyConfig (compile_patterns parenOnlyConfig)
        "（ｘ）a" = "a" :=
  ⟨by decide, by decide⟩

/-- Claim C3, amended: when any configured pattern entry fails to
compile, the whole compilation falls back to the empty rule set (all
matchers and the replacement mapping dropped, not only the offending
entry); the call itself does not crash, and filtering then performs
only the guard, literal word removal and whitespace normalization. -/
theorem claim_C3_amended (cfg : Config)
    (h : cfg.emoticon_patterns.any Option.isNone = true ∨
      (cfg.filter_special_chars = true ∧
        cfg.special_char_patterns.any Option.isNone = true)) :
    compile_patterns cfg = emptyRuleSet ∧
      ∀ s : String, filter_text cfg emptyRuleSet s =
        if s.data = [] ∨ cfg.max_processing_length < (s.length : Int) then ""
        else String.mk (normalizeWs (applyWordRemoval cfg.filter_words s.data)) := by
  constructor
  · rcases h with h | ⟨hs, h⟩
    · rw [compile_patterns, compileList_error h]
    · rcases hemo : compileList cfg.emoticon_patterns with e | qs <;>
        simp [compile_patterns, hs, compileList_error h, hemo]
  · intro s
    by_cases hg : s.data = [] ∨ cfg.max_processing_length < (s.length : Int) <;>
      simp [filter_text, hg, emptyRuleSet, applyRegexList, applyReplacements,
        applyRepeat]

theorem claim_C3_amended_witness :
    (parenPlusInvalidConfig.emoticon_patterns.any Option.isNone = true ∨
      (parenPlusInvalidConfig.filter_special_chars = true ∧
        parenPlusInvalidConfig.special_char_patterns.any Option.isNone = true)) ∧
    compile_patterns parenPlusInvalidConfig = emptyRuleSet :=
  ⟨Or.inl (by decide),
   (claim_C3_amended parenPlusInvalidConfig (Or.inl (by decide))).1⟩

/-- Claim C5: the replacement pass applies the mapping's rules in
insertion order, each rule once to the result of the previous ones, and
on the specified pairs the input 233666 filters to 哈哈哈厉害 (with a
second input showing every occurrence is replaced). -/
theorem claim_C5_replacements :
    (∀ (kv : List Char × List Char) (m : List (List Char × List Char))
        (t : List Char),
      applyReplacements (kv :: m) t = applyReplacements m (strReplace kv.1 kv.2 t)) ∧
    applyReplacements (parse_replacements ["233|哈哈哈".data, "666|厉害".data])
      "233666".data = "哈哈哈厉害".data ∧
    filter_text replacementsOnlyConfig (compile_patterns replacementsOnlyConfig)
      "233666" = "哈哈哈厉害" ∧
    filter_text replacementsOnlyConfig (compile_patterns replacementsOnlyConfig)
      "233x233666" = "哈哈哈x哈哈哈厉害" :=
  ⟨fun kv m t => rfl, by decide, by decide, by decide⟩

/-- Claim C10: `filter_text` (on the rule set compiled from the same
configuration) and `should_skip_tts` are unchanged when only the
`enabled` and `debug_mode` flags differ. -/
theorem claim_C10_flags_independent (cfg : Config) (e d : Bool) (s : String) :
    filterWithConfig { cfg with enabled := e, debug_mode := d } s =
        filterWithConfig cfg s ∧
      should_skip_tts { cfg with enabled := e, debug_mode := d } s =
        should_skip_tts cfg s := by
  cases cfg
  exact ⟨rfl, rfl⟩

/-! ### Whitespace normal form (for the idempotence property) -/

/-- The binary relation of `wsOk`: no two adjacent whitespace
characters. -/
def wsOkRel (a b : Char) : Prop :=
  ¬(isPySpace a = true ∧ isPySpace b = true)

/-- Normal form after the whitespace-collapsing pass: every whitespace
character is a plain space and no two adjacent characters are both
whitespace. -/
def wsOk (l : List Char) : Prop :=
  (∀ c ∈ l, isPySpace c = true → c = ' ') ∧ List.Chain' wsOkRel l

theorem collapseWsAux_cons (b : Bool) (c : Char) (cs : List Char) :
    collapseWsAux b (c :: cs) =
      if isPySpace c then
        (if b then collapseWsAux true cs else ' ' :: collapseWsAux true cs)
      else c :: collapseWsAux false cs := rfl

theorem collapseWsAux_true_head :
    ∀ (l : List Char) (x : Char), (collapseWsAux true l).head? = some x →
      isPySpace x = false := by
  intro l
  induction l with
  | nil =>
    intro x h
    simp [collapseWsAux] at h
  | cons c cs ih =>
    intro x h
    rw [collapseWsAux_cons] at h
    by_cases hc : isPySpace c
    · rw [if_pos hc, if_pos rfl] at h
      exact ih x h
    · rw [if_neg hc] at h
      simp only [List.head?_cons, Option.some.injEq] at h
      rw [← h]
      exact Bool.eq_false_iff.mpr hc

theorem wsOk_collapseWsAux (l : List Char) : ∀ b : Bool, wsOk (collapseWsAux b l) := by
  induction l with
  | nil =>
    intro b
    exact ⟨by simp [collapseWsAux], by simp [collapseWsAux]⟩
  | cons c cs ih =>
    intro b
    rw [collapseWsAux_cons]
    by_cases hc : isPySpace c
    · rw [if_pos hc]
      cases b with
      | true =>
        rw [if_pos rfl]
        exact ih true
      | false =>
        rw [if_neg (by simp)]
        refine ⟨?_, ?_⟩
        · intro x hx _
          rcases List.mem_cons.mp hx with rfl | hx'
          · rfl
          · exact (ih true).1 x hx' (by assumption)
        · rw [List.chain'_cons']
          refine ⟨?_, (ih true).2⟩
          intro y hy
          rintro ⟨-, hy'⟩
          rw [collapseWsAux_true_head cs y hy] at hy'
          exact Bool.false_ne_true hy'
    · rw [if_neg hc]
      refine ⟨?_, ?_⟩
      · intro x hx hx'
        rcases List.mem_cons.mp hx with rfl | hx''
        · exact absurd hx' (by simp [hc])
        · exact (ih false).1 x hx'' hx'
      · rw [List.chain'_cons']
        refine ⟨?_, (ih false).2⟩
        intro y hy
        rintro ⟨hc', -⟩
        rw [hc'] at hc
        exact hc rfl

theorem collapseWsAux_eq_self :
    ∀ l : List Char, wsOk l →
      collapseWsAux false l = l ∧
        ((∀ x, l.head? = some x → isPySpace x = false) →
          collapseWsAux true l = l) := by
  intro l
  induction l with
  | nil => exact fun _ => ⟨rfl, fun _ => rfl⟩
  | cons c cs ih =>
    rintro ⟨hmem, hch⟩
    have hcs : wsOk cs :=
      ⟨fun x hx => hmem x (List.mem_cons_of_mem _ hx), hch.tail⟩
    obtain ⟨ihf, iht⟩ := ih hcs
    by_cases hc : isPySpace c
    · have hsp : c = ' ' := hmem c (List.mem_cons_self _ _) hc
      have hhead : ∀ x, cs.head? = some x → isPySpace x = false := by
        intro x hx
        cases cs with
        | nil => simp at hx
        | cons d ds =>
          simp only [List.head?_cons, Option.some.injEq] at hx
          have hrel : wsOkRel c d := (List.chain'_cons.mp hch).1
          rw [← hx]
          cases h : isPySpace d
          · rfl
          · exact absurd ⟨hc, h⟩ hrel
      constructor
      · rw [collapseWsAux_cons, if_pos hc, if_neg Bool.false_ne_true, iht hhead,
          hsp]
      · intro hh
        exact absurd (hh c rfl) (by simp [hc])
    · constructor
      · rw [collapseWsAux_cons, if_neg hc, ihf]
      · intro _
        rw [collapseWsAux_cons, if_neg hc, ihf]

theorem wsOk_dropWhile (p : Char → Bool) :
    ∀ l : List Char, wsOk l → wsOk (l.dropWhile p) := by
  intro l
  induction l with
  | nil => exact fun h => h
  | cons c cs ih =>
    rintro ⟨hmem, hch⟩
    rw [List.dropWhile_cons]
    by_cases hc : p c
    · rw [if_pos hc]
      exact ih ⟨fun x hx => hmem x (List.mem_cons_of_mem _ hx), hch.tail⟩
    · rw [if_neg hc]
      exact ⟨hmem, hch⟩

theorem wsOk_rdropWhile (p : Char → Bool) (l : List Char) (h : wsOk l) :
    wsOk (List.rdropWhile p l) := by
  obtain ⟨t, ht⟩ := List.rdropWhile_prefix p l
  constructor
  · intro c hc
    exact h.1 c (by rw [← ht]; exact List.mem_append_left _ hc)
  · exact List.Chain'.prefix h.2 ⟨t, ht⟩

/-- Claim C8: the final whitespace-normalization step (collapse each
whitespace run to one space, then strip) is idempotent. -/
theorem claim_C8_ws_idempotent (l : List Char) :
    normalizeWs (normalizeWs l) = normalizeWs l := by
  have h1 : wsOk (collapseWs l) := wsOk_collapseWsAux l false
  have h2 : wsOk (pyStrip (collapseWs l)) := by
    rw [pyStrip_eq_rdropWhile]
    exact wsOk_rdropWhile _ _ (wsOk_dropWhile _ _ h1)
  show pyStrip (collapseWs (pyStrip (collapseWs l))) = pyStrip (collapseWs l)
  rw [show collapseWs (pyStrip (collapseWs l)) = pyStrip (collapseWs l) from
    (collapseWsAux_eq_self _ h2).1, pyStrip_idem]

/-! ### Run collapsing (for the repeat-pass property) -/

theorem collapseRunsAux_cons (m n : Nat) (c : Char) (k : Nat) (d : Char)
    (ds : List Char) :
    collapseRunsAux m n c k (d :: ds) =
      if d = c then collapseRunsAux m n c (k + 1) ds
      else emitRun m n c k ++ collapseRunsAux m n d 1 ds := rfl

theorem collapseRunsAux_replicate (m n : Nat) (c : Char) :
    ∀ (i k : Nat) (rest : List Char),
      collapseRunsAux m n c k (List.replicate i c ++ rest) =
        collapseRunsAux m n c (k + i) rest := by
  intro i
  induction i with
  | zero =>
    intro k rest
    simp
  | succ i ih =>
    intro k rest
    rw [List.replicate_succ, List.cons_append, collapseRunsAux_cons, if_pos rfl,
      ih]
    have h : k + 1 + i = k + (i + 1) := by omega
    rw [h]

theorem collapseRunsAux_run_tail (m n : Nat) (c : Char) (k : Nat)
    (v : List Char) (hk : m < k) (hv : v.head? ≠ some c) :
    collapseRunsAux m n c k v = List.replicate n c ++ collapseRunsWith m n v := by
  cases v with
  | nil => simp [collapseRunsAux, collapseRunsWith, emitRun, hk]
  | cons d ds =>
    have hd : d ≠ c := fun h => hv (by rw [h]; rfl)
    rw [collapseRunsAux_cons, if_neg hd, emitRun, if_pos hk]
    rfl

theorem collapseRunsWith_head_run (m n : Nat) (c : Char) (k : Nat)
    (v : List Char) (hk : m < k) (hv : v.head? ≠ some c) :
    collapseRunsWith m n (List.replicate k c ++ v) =
      List.replicate n c ++ collapseRunsWith m n v := by
  cases k with
  | zero => omega
  | succ i =>
    rw [List.replicate_succ, List.cons_append]
    show collapseRunsAux m n c 1 (List.replicate i c ++ v) = _
    rw [collapseRunsAux_replicate]
    exact collapseRunsAux_run_tail m n c (1 + i) v (by omega) hv

theorem collapseRunsAux_append_run (m n : Nat) (c : Char) (k : Nat)
    (v : List Char) (hk : m < k) (hv : v.head? ≠ some c) :
    ∀ (u : List Char) (a : Char) (j : Nat), (a :: u).getLast? ≠ some c →
      collapseRunsAux m n a j (u ++ List.replicate k c ++ v) =
        collapseRunsAux m n a j u ++ List.replicate n c ++
          collapseRunsWith m n v := by
  intro u
  induction u with
  | nil =>
    intro a j ha
    have hac : c ≠ a := fun h => ha (by rw [← h]; rfl)
    cases k with
    | zero => omega
    | succ i =>
      rw [List.nil_append, List.replicate_succ, List.cons_append,
        collapseRunsAux_cons, if_neg hac, collapseRunsAux_replicate,
        collapseRunsAux_run_tail m n c (1 + i) v (by omega) hv]
      show _ = emitRun m n a j ++ List.replicate n c ++ collapseRunsWith m n v
      rw [List.append_assoc]
  | cons b u ih =>
    intro a j ha
    have ha' : (b :: u).getLast? ≠ some c := by
      rwa [List.getLast?_cons_cons] at ha
    rw [List.cons_append, List.cons_append, collapseRunsAux_cons,
      collapseRunsAux_cons]
    by_cases hb : b = a
    · rw [if_pos hb, if_pos hb]
      subst hb
      exact ih b (j + 1) ha'
    · rw [if_neg hb, if_neg hb, ih b 1 ha', List.append_assoc,
        List.append_assoc, List.append_assoc]

theorem collapseRunsWith_split (m n : Nat) (c : Char) (k : Nat)
    (u v : List Char) (hk : m < k) (hu : u.getLast? ≠ some c)
    (hv : v.head? ≠ some c) :
    collapseRunsWith m n (u ++ List.replicate k c ++ v) =
      collapseRunsWith m n u ++ List.replicate n c ++
        collapseRunsWith m n v := by
  cases u with
  | nil => simpa using collapseRunsWith_head_run m n c k v hk hv
  | cons a u' =>
    show collapseRunsAux m n a 1 (u' ++ List.replicate k c ++ v) = _
    rw [collapseRunsAux_append_run m n c k v hk hv u' a 1 hu]
    rfl

theorem mem_emitRun {m n : Nat} {c x : Char} {k : Nat}
    (h : x ∈ emitRun m n c k) : x = c := by
  rw [emitRun] at h
  by_cases hm : m < k
  · rw [if_pos hm] at h
    exact List.eq_of_mem_replicate h
  · rw [if_neg hm] at h
    exact List.eq_of_mem_replicate h

theorem mem_collapseRunsAux (m n : Nat) :
    ∀ (l : List Char) (c : Char) (k : Nat) (x : Char),
      x ∈ collapseRunsAux m n c k l → x = c ∨ x ∈ l := by
  intro l
  induction l with
  | nil =>
    intro c k x h
    exact Or.inl (mem_emitRun h)
  | cons d ds ih =>
    intro c k x h
    rw [collapseRunsAux_cons] at h
    by_cases hd : d = c
    · rw [if_pos hd] at h
      rcases ih c (k + 1) x h with h' | h'
      · exact Or.inl h'
      · exact Or.inr (List.mem_cons_of_mem _ h')
    · rw [if_neg hd] at h
      rcases List.mem_append.mp h with h' | h'
      · exact Or.inl (mem_emitRun h')
      · rcases ih d 1 x h' with h'' | h''
        · exact Or.inr (by rw [h'']; exact List.mem_cons_self _ _)
        · exact Or.inr (List.mem_cons_of_mem _ h'')

theorem mem_collapseRunsWith {m n : Nat} {l : List Char} {x : Char}
    (h : x ∈ collapseRunsWith m n l) : x ∈ l := by
  cases l with
  | nil => simp [collapseRunsWith] at h
  | cons c cs =>
    rcases mem_collapseRunsAux m n cs c 1 x h with h' | h'
    · rw [h']
      exact List.mem_cons_self _ _
    · exact List.mem_cons_of_mem _ h'

theorem collapseWsAux_no_ws :
    ∀ l : List Char, (∀ x ∈ l, isPySpace x = false) →
      ∀ b, collapseWsAux b l = l := by
  intro l
  induction l with
  | nil =>
    intro _ b
    rfl
  | cons c cs ih =>
    intro h b
    rw [collapseWsAux_cons,
      if_neg (by simp [h c (List.mem_cons_self _ _)]),
      ih (fun x hx => h x (List.mem_cons_of_mem _ hx)) false]

theorem pyStrip_no_ws (l : List Char) (h : ∀ x ∈ l, isPySpace x = false) :
    pyStrip l = l := by
  rw [pyStrip_eq_rdropWhile]
  have h1 : l.dropWhile isPySpace = l := by
    rw [List.dropWhile_eq_self_iff]
    intro hl
    have hx : isPySpace (l.get ⟨0, hl⟩) = false := h _ (l.get_mem 0 hl)
    rw [List.get_eq_getElem] at hx
    simp [hx]
  rw [h1, List.rdropWhile_eq_self_iff.mpr]
  intro hl
  simp [h _ (List.getLast_mem hl)]

theorem normalizeWs_no_ws (l : List Char) (h : ∀ x ∈ l, isPySpace x = false) :
    normalizeWs l = l := by
  rw [normalizeWs]
  rw [show collapseWs l = l from collapseWsAux_no_ws l h false]
  exact pyStrip_no_ws l h

/-- Claim C4, counterexample: with only the repeat pass configured
(`max_repeat_count = 2`), the run of three spaces in `a   b` is not
collapsed to two spaces at that position — the final whitespace
normalization reduces it to a single space. -/
theorem claim_C4_counterexample :
    filter_text (repeatOnlyConfig 2) (compile_patterns (repeatOnlyConfig 2))
        "a   b" = "a b" ∧ ("a b" : String) ≠ "a  b" :=
  ⟨by decide, by decide⟩

/-- The whitespace-collapse scan distributes over a non-whitespace
boundary character (the scan state cannot carry a run across it). -/
theorem collapseWsAux_append_nonws {c : Char} (hc : isPySpace c = false) :
    ∀ (X : List Char) (b : Bool) (R : List Char),
      collapseWsAux b (X ++ c :: R) =
        collapseWsAux b X ++ collapseWsAux false (c :: R) := by
  intro X
  induction X with
  | nil =>
    intro b R
    show collapseWsAux b (c :: R) =
      collapseWsAux b [] ++ collapseWsAux false (c :: R)
    rw [collapseWsAux_cons, if_neg (by simp [hc]), collapseWsAux_cons,
      if_neg (by simp [hc])]
    cases b <;> rfl
  | cons x X ih =>
    intro b R
    rw [List.cons_append, collapseWsAux_cons, collapseWsAux_cons]
    by_cases hx : isPySpace x
    · rw [if_pos hx, if_pos hx]
      cases b with
      | true =>
        rw [if_pos rfl, if_pos rfl, ih true R]
      | false =>
        rw [if_neg Bool.false_ne_true, if_neg Bool.false_ne_true, ih true R]
        rfl
    · rw [if_neg hx, if_neg hx, ih false R]
      rfl

theorem collapseWsAux_replicate_nonws {c : Char} (hc : isPySpace c = false) :
    ∀ (i : Nat) (Y : List Char),
      collapseWsAux false (List.replicate i c ++ Y) =
        List.replicate i c ++ collapseWsAux false Y := by
  intro i
  induction i with
  | zero =>
    intro Y
    rfl
  | succ i ih =>
    intro Y
    rw [List.replicate_succ, List.cons_append, collapseWsAux_cons,
      if_neg (by simp [hc]), ih]
    rfl

theorem collapseWs_split_nonws {c : Char} (hc : isPySpace c = false)
    (m : Nat) (A B : List Char) :
    collapseWs (A ++ List.replicate (m + 1) c ++ B) =
      collapseWs A ++ List.replicate (m + 1) c ++ collapseWs B := by
  have h1 : A ++ List.replicate (m + 1) c ++ B =
      A ++ c :: (List.replicate m c ++ B) := by
    rw [List.append_assoc, List.replicate_succ, List.cons_append]
  have h2 : collapseWsAux false (c :: (List.replicate m c ++ B)) =
      c :: (List.replicate m c ++ collapseWsAux false B) := by
    rw [collapseWsAux_cons, if_neg (by simp [hc]),
      collapseWsAux_replicate_nonws hc]
  show collapseWsAux false (A ++ List.replicate (m + 1) c ++ B) =
    collapseWsAux false A ++ List.replicate (m + 1) c ++ collapseWsAux false B
  rw [h1, collapseWsAux_append_nonws hc A false, h2, List.replicate_succ]
  simp [List.append_assoc]

theorem dropWhile_append_nonws {p : Char → Bool} {c : Char} (hc : p c = false) :
    ∀ (X R : List Char),
      List.dropWhile p (X ++ c :: R) = List.dropWhile p X ++ c :: R := by
  intro X
  induction X with
  | nil =>
    intro R
    rw [List.nil_append, List.dropWhile_cons, if_neg (by simp [hc]),
      List.dropWhile_nil, List.nil_append]
  | cons x X ih =>
    intro R
    rw [List.cons_append, List.dropWhile_cons, List.dropWhile_cons]
    by_cases hx : p x
    · rw [if_pos hx, if_pos hx, ih]
    · rw [if_neg hx, if_neg hx, List.cons_append]

theorem rdropWhile_append_nonws {p : Char → Bool} {c : Char}
    (hc : p c = false) (X Y : List Char) :
    List.rdropWhile p (X ++ c :: Y) = X ++ c :: List.rdropWhile p Y := by
  show ((X ++ c :: Y).reverse.dropWhile p).reverse =
    X ++ c :: (Y.reverse.dropWhile p).reverse
  have h1 : (X ++ c :: Y).reverse = Y.reverse ++ c :: X.reverse := by
    simp
  rw [h1, dropWhile_append_nonws hc]
  simp

theorem pyStrip_split_nonws {c : Char} (hc : isPySpace c = false) (m : Nat)
    (A B : List Char) :
    pyStrip (A ++ List.replicate (m + 1) c ++ B) =
      List.dropWhile isPySpace A ++ List.replicate (m + 1) c ++
        List.rdropWhile isPySpace B := by
  have hrot : ∀ L : List Char,
      c :: (List.replicate m c ++ L) = List.replicate m c ++ c :: L := by
    intro L
    rw [← List.cons_append, ← List.replicate_succ, List.replicate_succ',
      List.append_assoc, List.singleton_append]
  have h1 : A ++ List.replicate (m + 1) c ++ B =
      A ++ c :: (List.replicate m c ++ B) := by
    rw [List.append_assoc, List.replicate_succ, List.cons_append]
  rw [pyStrip_eq_rdropWhile, h1, dropWhile_append_nonws hc]
  have h2 : List.dropWhile isPySpace A ++ c :: (List.replicate m c ++ B) =
      (List.dropWhile isPySpace A ++ List.replicate m c) ++ c :: B := by
    rw [hrot, ← List.append_assoc]
  rw [h2, rdropWhile_append_nonws hc, List.append_assoc,
    ← hrot (List.rdropWhile isPySpace B), ← List.cons_append,
    ← List.replicate_succ, ← List.append_assoc]

/-- The whitespace-normalization step around a non-empty block of a
non-whitespace character: the block passes through unchanged, the left
context is whitespace-collapsed and stripped of leading whitespace, the
right context whitespace-collapsed and stripped of trailing
whitespace. -/
theorem normalizeWs_split_nonws {c : Char} (hc : isPySpace c = false)
    (m : Nat) (A B : List Char) :
    normalizeWs (A ++ List.replicate (m + 1) c ++ B) =
      List.dropWhile isPySpace (collapseWs A) ++ List.replicate (m + 1) c ++
        List.rdropWhile isPySpace (collapseWs B) := by
  show pyStrip (collapseWs (A ++ List.replicate (m + 1) c ++ B)) = _
  rw [collapseWs_split_nonws hc m A B, pyStrip_split_nonws hc m]

/-- Claim C4, amended: with the repeat pass the only configured rule
and `max_repeat_count = n ≥ 1`, a maximal run of a non-whitespace
character `c` repeated `k` times (`n < k ≤ 50`) is collapsed so that
the output of filter contains exactly `n` copies of `c` at that
position; the surrounding context, which may contain whitespace, is
transformed only by the same run collapse and the final whitespace
normalization.  For whitespace run characters the claim fails: the
normalization step further collapses the `n` copies, as the
counterexample shows. -/
theorem claim_C4_amended (n : Nat) (c : Char) (k : Nat) (u v : List Char)
    (hn : 1 ≤ n) (hnk : n < k) (_hk : k ≤ 50) (hc : isPySpace c = false)
    (hul : u.getLast? ≠ some c) (hvh : v.head? ≠ some c)
    (hlen : u.length + k + v.length ≤ 10000) :
    filter_text (repeatOnlyConfig n) (compile_patterns (repeatOnlyConfig n))
        (String.mk (u ++ List.replicate k c ++ v)) =
      String.mk
        (List.dropWhile isPySpace (collapseWs (collapseRunsWith n n u)) ++
          List.replicate n c ++
          List.rdropWhile isPySpace (collapseWs (collapseRunsWith n n v))) := by
  obtain ⟨m, rfl⟩ : ∃ m, n = m + 1 := ⟨n - 1, by omega⟩
  have hguard : ¬((String.mk (u ++ List.replicate k c ++ v)).data = [] ∨
      (repeatOnlyConfig (m + 1)).max_processing_length <
        (((String.mk (u ++ List.replicate k c ++ v)).length : Int))) := by
    rintro (h0 | h1)
    · have := congrArg List.length h0
      simp [List.length_append] at this
      omega
    · have hL : (String.mk (u ++ List.replicate k c ++ v)).length =
          u.length + (k + v.length) := by
        simp [String.length, List.length_append]
      rw [hL] at h1
      have h10 : (repeatOnlyConfig (m + 1)).max_processing_length =
          (10000 : Int) := rfl
      rw [h10] at h1
      omega
  have step1 : filter_text (repeatOnlyConfig (m + 1))
      (compile_patterns (repeatOnlyConfig (m + 1)))
      (String.mk (u ++ List.replicate k c ++ v)) =
      if (String.mk (u ++ List.replicate k c ++ v)).data = [] ∨
          (repeatOnlyConfig (m + 1)).max_processing_length <
            (((String.mk (u ++ List.replicate k c ++ v)).length : Int)) then ""
      else String.mk (normalizeWs
        (collapseRunsWith (m + 1) (m + 1) (u ++ List.replicate k c ++ v))) :=
    rfl
  rw [step1, if_neg hguard,
    collapseRunsWith_split (m + 1) (m + 1) c k u v hnk hul hvh]
  congr 1
  exact normalizeWs_split_nonws hc m _ _

theorem claim_C4_amended_witness :
    (1 ≤ 2 ∧ 2 < 3 ∧ 3 ≤ 50 ∧ isPySpace 'ｗ' = false ∧
      "x ".data.getLast? ≠ some 'ｗ' ∧ " y".data.head? ≠ some 'ｗ' ∧
      "x ".data.length + 3 + " y".data.length ≤ 10000) ∧
    filter_text (repeatOnlyConfig 2) (compile_patterns (repeatOnlyConfig 2))
        (String.mk ("x ".data ++ List.replicate 3 'ｗ' ++ " y".data)) =
      String.mk
        (List.dropWhile isPySpace (collapseWs (collapseRunsWith 2 2 "x ".data)) ++
          List.replicate 2 'ｗ' ++
          List.rdropWhile isPySpace (collapseWs (collapseRunsWith 2 2 " y".data))) :=
  ⟨by decide,
   claim_C4_amended 2 'ｗ' 3 "x ".data " y".data (by decide) (by decide)
     (by decide) (by decide) (by decide) (by decide) (by decide)⟩

/-! ### Replacement parsing: format acceptance, order, invariants -/

/-- The format condition under which `_parse_replacements` accepts an
entry: it contains a separator bar, and both halves of the first split
are non-empty after stripping. -/
def acceptsEntry (e : List Char) : Prop :=
  e.contains '|' = true ∧ pyStrip (splitFirst '|' e).1 ≠ [] ∧
    pyStrip (splitFirst '|' e).2 ≠ []

instance decAcceptsEntry (e : List Char) : Decidable (acceptsEntry e) :=
  inferInstanceAs (Decidable (e.contains '|' = true ∧
    pyStrip (splitFirst '|' e).1 ≠ [] ∧ pyStrip (splitFirst '|' e).2 ≠ []))

theorem parseStep_eq (m : List (List Char × List Char)) (e : List Char) :
    parseStep m e =
      if acceptsEntry e then
        dictInsert (pyStrip (splitFirst '|' e).1) (pyStrip (splitFirst '|' e).2) m
      else m := by
  have h : parseStep m e =
      if e.contains '|' then
        (if pyStrip (splitFirst '|' e).1 ≠ [] ∧ pyStrip (splitFirst '|' e).2 ≠ []
         then dictInsert (pyStrip (splitFirst '|' e).1)
           (pyStrip (splitFirst '|' e).2) m
         else m)
      else m := rfl
  rw [h]
  by_cases h1 : e.contains '|' = true
  · rw [if_pos h1]
    by_cases h2 : pyStrip (splitFirst '|' e).1 ≠ [] ∧
        pyStrip (splitFirst '|' e).2 ≠ []
    · rw [if_pos h2, if_pos ⟨h1, h2.1, h2.2⟩]
    · rw [if_neg h2, if_neg (fun hA => h2 ⟨hA.2.1, hA.2.2⟩)]
  · rw [if_neg h1, if_neg (fun hA => h1 hA.1)]

theorem parse_replacements_append (l : List (List Char)) (e : List Char) :
    parse_replacements (l ++ [e]) =
      if acceptsEntry e then
        dictInsert (pyStrip (splitFirst '|' e).1) (pyStrip (splitFirst '|' e).2)
          (parse_replacements l)
      else parse_replacements l := by
  have h : parse_replacements (l ++ [e]) = parseStep (parse_replacements l) e := by
    show List.foldl parseStep [] (l ++ [e]) = _
    rw [List.foldl_append, List.foldl_cons, List.foldl_nil]
    rfl
  rw [h, parseStep_eq]

theorem lookup_map_update (k v : List Char) :
    ∀ m : List (List Char × List Char),
      List.lookup k (m.map (fun kv => if kv.1 == k then (k, v) else kv)) =
        (List.lookup k m).map (fun _ => v) := by
  intro m
  induction m with
  | nil => rfl
  | cons kv rest ih =>
    rw [List.map_cons]
    by_cases h : (kv.1 == k) = true
    · have hk : kv.1 = k := by simpa using h
      rw [if_pos h]
      simp [List.lookup, hk, ih]
    · have hk : ¬ kv.1 = k := by simpa using h
      rw [if_neg h]
      have hb' : (k == kv.1) = false := by simp [Ne.symm hk]
      simpa [List.lookup, hb'] using ih

theorem lookup_append_right (k v : List Char) :
    ∀ m : List (List Char × List Char), (∀ kv ∈ m, kv.1 ≠ k) →
      List.lookup k (m ++ [(k, v)]) = some v := by
  intro m
  induction m with
  | nil => simp [List.lookup]
  | cons kv rest ih =>
    intro h
    have h1 : (k == kv.1) = false := by
      simp [Ne.symm (h kv (List.mem_cons_self _ _))]
    rw [List.cons_append]
    simp [List.lookup, h1]
    exact ih (fun x hx => h x (List.mem_cons_of_mem _ hx))

theorem lookup_isSome_of_any (k : List Char) :
    ∀ m : List (List Char × List Char),
      m.any (fun kv => kv.1 == k) = true →
      ∃ w, List.lookup k m = some w := by
  intro m
  induction m with
  | nil => simp
  | cons kv rest ih =>
    intro h
    by_cases h1 : kv.1 = k
    · exact ⟨kv.2, by simp [List.lookup, h1]⟩
    · have h2 : rest.any (fun kv => kv.1 == k) = true := by
        simpa [List.any_cons, h1] using h
      obtain ⟨w, hw⟩ := ih h2
      refine ⟨w, ?_⟩
      have h3 : (k == kv.1) = false := by simp [Ne.symm h1]
      simp [List.lookup, h3, hw]

theorem dictInsert_last_wins (m : List (List Char × List Char))
    (k v : List Char) : List.lookup k (dictInsert k v m) = some v := by
  unfold dictInsert
  by_cases h : m.any (fun kv => kv.1 == k) = true
  · rw [if_pos h, lookup_map_update]
    obtain ⟨w, hw⟩ := lookup_isSome_of_any k m h
    rw [hw]
    rfl
  · rw [if_neg h]
    apply lookup_append_right
    intro kv hkv hk
    apply h
    rw [List.any_eq_true]
    exact ⟨kv, hkv, by simp [hk]⟩

theorem dictInsert_keys (m : List (List Char × List Char)) (k v : List Char) :
    (dictInsert k v m).map Prod.fst =
      if m.any (fun kv => kv.1 == k) = true then m.map Prod.fst
      else m.map Prod.fst ++ [k] := by
  unfold dictInsert
  by_cases h : m.any (fun kv => kv.1 == k) = true
  · rw [if_pos h, if_pos h, List.map_map]
    apply List.map_congr_left
    intro kv hkv
    by_cases h1 : kv.1 = k
    · simp [Function.comp, h1]
    · simp [Function.comp, h1]
  · rw [if_neg h, if_neg h, List.map_append]
    rfl

/-- Claim C6: an entry is accepted into the replacement mapping exactly
when it contains a separator bar and both stripped halves of the first
split are non-empty (all other entries are skipped, never aborting the
fold); insertion order of keys is preserved, and inserting an existing
key overwrites its value (last entry wins). -/
theorem claim_C6_parse_format :
    (∀ (l : List (List Char)) (e : List Char),
      parse_replacements (l ++ [e]) =
        if acceptsEntry e then
          dictInsert (pyStrip (splitFirst '|' e).1)
            (pyStrip (splitFirst '|' e).2) (parse_replacements l)
        else parse_replacements l) ∧
    (∀ (m : List (List Char × List Char)) (k v : List Char),
      List.lookup k (dictInsert k v m) = some v) ∧
    (∀ (m : List (List Char × List Char)) (k v : List Char),
      (dictInsert k v m).map Prod.fst =
        if m.any (fun kv => kv.1 == k) = true then m.map Prod.fst
        else m.map Prod.fst ++ [k]) :=
  ⟨parse_replacements_append, dictInsert_last_wins, dictInsert_keys⟩

/-- Keys and values the parser may store: non-empty and fixed by
stripping. -/
def goodPair (kv : List Char × List Char) : Prop :=
  kv.1 ≠ [] ∧ pyStrip kv.1 = kv.1 ∧ kv.2 ≠ [] ∧ pyStrip kv.2 = kv.2

theorem goodPair_dictInsert {m : List (List Char × List Char)}
    {k v : List Char} (hm : ∀ kv ∈ m, goodPair kv) (hkv : goodPair (k, v)) :
    ∀ kv ∈ dictInsert k v m, goodPair kv := by
  intro kv hkv'
  unfold dictInsert at hkv'
  by_cases h : m.any (fun kv => kv.1 == k) = true
  · rw [if_pos h] at hkv'
    obtain ⟨w, hw, hweq⟩ := List.mem_map.mp hkv'
    by_cases h1 : (w.1 == k) = true
    · rw [if_pos h1] at hweq
      rw [← hweq]
      exact hkv
    · rw [if_neg (by simpa using h1)] at hweq
      rw [← hweq]
      exact hm w hw
  · rw [if_neg h] at hkv'
    rcases List.mem_append.mp hkv' with h' | h'
    · exact hm _ h'
    · rw [List.mem_singleton.mp h']
      exact hkv

theorem goodPair_parseStep {m : List (List Char × List Char)}
    (hm : ∀ kv ∈ m, goodPair kv) (e : List Char) :
    ∀ kv ∈ parseStep m e, goodPair kv := by
  rw [parseStep_eq]
  by_cases h : acceptsEntry e
  · rw [if_pos h]
    exact goodPair_dictInsert hm
      ⟨h.2.1, pyStrip_idem _, h.2.2, pyStrip_idem _⟩
  · rw [if_neg h]
    exact hm

theorem goodPair_parse (lst : List (List Char)) :
    ∀ kv ∈ parse_replacements lst, goodPair kv := by
  suffices h : ∀ (l : List (List Char)) (m : List (List Char × List Char)),
      (∀ kv ∈ m, goodPair kv) → ∀ kv ∈ List.foldl parseStep m l, goodPair kv by
    exact h lst [] (by simp)
  intro l
  induction l with
  | nil =>
    intro m hm
    simpa using hm
  | cons e rest ih =>
    intro m hm
    rw [List.foldl_cons]
    exact ih _ (goodPair_parseStep hm e)

/-- Claim C9: every key and value the parser stores is a non-empty
string equal to its own stripped form, and parsing is total (it always
returns such a mapping). -/
theorem claim_C9_parse_invariant (lst : List (List Char))
    (kv : List Char × List Char) (h : kv ∈ parse_replacements lst) :
    kv.1 ≠ [] ∧ pyStrip kv.1 = kv.1 ∧ kv.2 ≠ [] ∧ pyStrip kv.2 = kv.2 :=
  goodPair_parse lst kv h

theorem claim_C9_parse_invariant_witness :
    (("233".data, "哈哈哈".data) ∈ parse_replacements DEFAULT_REPLACEMENTS) ∧
      ("233".data ≠ ([] : List Char) ∧ pyStrip "233".data = "233".data ∧
        "哈哈哈".data ≠ ([] : List Char) ∧
        pyStrip "哈哈哈".data = "哈哈哈".data) :=
  ⟨by decide,
   claim_C9_parse_invariant DEFAULT_REPLACEMENTS ("233".data, "哈哈哈".data)
     (by decide)⟩

/-- Claim C7: the end-to-end scenario under the default configuration:
orz is removed, 666 becomes 厉害, the emoticon disappears, the run of
ｗ collapses to two copies, and the final non-empty result passes the
gate with `max_length = 200`. -/
theorem claim_C7_end_to_end :
    filterWithConfig get_default_config "666，哈哈哈orz（＾＿＾）ｗｗｗｗｗｗｗ" =
        "厉害，哈哈ｗｗ" ∧
      ¬ ("orz".data <:+: (filterWithConfig get_default_config
        "666，哈哈哈orz（＾＿＾）ｗｗｗｗｗｗｗ").data) ∧
      ("厉害".data <:+: (filterWithConfig get_default_config
        "666，哈哈哈orz（＾＿＾）ｗｗｗｗｗｗｗ").data) ∧
      ¬ ("666".data <:+: (filterWithConfig get_default_config
        "666，哈哈哈orz（＾＿＾）ｗｗｗｗｗｗｗ").data) ∧
      ¬ ("（＾＿＾）".data <:+: (filterWithConfig get_default_config
        "666，哈哈哈orz（＾＿＾）ｗｗｗｗｗｗｗ").data) ∧
      ("ｗｗ".data <:+: (filterWithConfig get_default_config
        "666，哈哈哈orz（＾＿＾）ｗｗｗｗｗｗｗ").data) ∧
      ¬ ("ｗｗｗ".data <:+: (filterWithConfig get_default_config
        "666，哈哈哈orz（＾＿＾）ｗｗｗｗｗｗｗ").data) ∧
      pyStrip (filterWithConfig get_default_config
        "666，哈哈哈orz（＾＿＾）ｗｗｗｗｗｗｗ").data ≠ [] ∧
      get_default_config.max_length = 200 ∧
      should_skip_tts get_default_config (filterWithConfig get_default_config
        "666，哈哈哈orz（＾＿＾）ｗｗｗｗｗｗｗ") = false :=
  ⟨by decide, by decide, by decide, by decide, by decide, by decide, by decide,
   by decide, rfl, by decide⟩

end TTS
